import Mathlib

/-!
Shallow embedding of `include/spherical_harmonics.h` (namespace `cush`), a
CUDA header implementing real spherical-harmonic basis evaluation, index
mapping, coefficient-vector operations, projection-matrix construction,
tessellated-sphere sampling, and Clebsch-Gordan coupling of coefficient
vectors.

Modelling conventions:
* The source templates every numeric routine over a `precision` type
  (`float` or `double`).  We mirror this with a type parameter `α` carrying a
  `LinearOrderedField` instance, idealising floating point as exact field
  arithmetic; the math-library operations `sqrt`, `cos`, `sin` and the
  constant `M_PI` are threaded through as an operations record `RealOps α`,
  so every definition stays executable and theorems hold for any
  interpretation of those operations.
* Integer `sqrtf`-then-floor on an unsigned argument is modelled by
  `Nat.sqrt` (the floor of the real square root).  Unsigned subtractions
  occurring only where the source guarantees a non-negative result are
  modelled with `Nat` subtraction.
* The external collaborators (`associated_legendre`, `factorial`,
  `clebsch_gordan`) are out of scope for the repository and are threaded
  through as function parameters `P`, `fact`, `CG`.
* CUDA kernels are embedded as functions from an initial output buffer
  (`ℕ → value`) to a final output buffer.  `atomicAdd` accumulation over a
  grid of work items is modelled as the sum over all in-range work items of
  their contributions; write-once slots are modelled through the decoding
  of the slot offset, which is justified by the bijectivity of the offset
  maps (proved below).  Out-of-range work items are discarded by the
  kernels' bounds checks, hence ranges are `Finset.range`.
-/

namespace cush

/-- The math-library operations the source header uses (`sqrt`, `cos`,
`sin`, `M_PI`), bundled so the embedding is parametric in their
interpretation exactly as the source is parametric in `precision`. -/
structure RealOps (α : Type) where
  sqrt : α → α
  cos : α → α
  sin : α → α
  pi : α

/-- A 3-component record mirroring CUDA `float3`/`double3`-style point types:
`x` carries the evaluated scalar value, `y` the azimuth θ and `z` the polar
angle φ. -/
structure Point3 (α : Type) where
  x : α
  y : α
  z : α
deriving DecidableEq

variable {α : Type} [LinearOrderedField α]

/-- Source `maximum_degree(coefficient_count) = sqrtf(coefficient_count) - 1`
(truncating conversion to `unsigned int`), idealised with `Nat.sqrt`. -/
def maximum_degree (coefficient_count : ℕ) : ℕ :=
  Nat.sqrt coefficient_count - 1

/-- Source `coefficient_count(max_l) = (max_l + 1) * (max_l + 1)`. -/
def coefficient_count (max_l : ℕ) : ℕ :=
  (max_l + 1) * (max_l + 1)

/-- Source `coefficient_index(l, m) = l * (l + 1) + m`.  In the source the result is
`unsigned int`; with the documented precondition `-l ≤ m ≤ l` it is
non-negative, and we keep the exact integer value. -/
def coefficient_index (l : ℕ) (m : ℤ) : ℤ :=
  l * (l + 1) + m

/-- Source `coefficient_lm(index)`: `lm.x = floor(sqrtf(index))`,
`lm.y = index - powf(lm.x, 2) - lm.x`.  The degree `lm.x` is non-negative, so
it is modelled as `ℕ`; the order is an `ℤ`. -/
def coefficient_lm (index : ℕ) : ℕ × ℤ :=
  let l := Nat.sqrt index
  (l, (index : ℤ) - (l : ℤ) ^ 2 - (l : ℤ))

/-- Source `evaluate(l, m, theta, phi)`: the normalisation constant
`kml = sqrt((2l+1) * fact(l - |m|) / (4π * fact(l + |m|)))` followed by the
three-way branch on the sign of `m`.  `P` is the external
`associated_legendre` evaluator and `fact` the external `factorial`.  The
unsigned subtraction `l - abs(m)` is modelled by `Nat` subtraction (the
documented precondition `|m| ≤ l` makes it exact). -/
def evaluate (ops : RealOps α) (P : ℕ → ℤ → α → α) (fact : ℕ → α)
    (l : ℕ) (m : ℤ) (theta phi : α) : α :=
  let kml := ops.sqrt ((2 * (l : α) + 1) * fact (l - m.natAbs) /
                       (4 * ops.pi * fact (l + m.natAbs)))
  if 0 < m then
    ops.sqrt 2 * kml * ops.cos ((m : α) * theta) * P l m (ops.cos phi)
  else if m < 0 then
    ops.sqrt 2 * kml * ops.sin ((-m : α) * theta) * P l (-m) (ops.cos phi)
  else
    kml * P l 0 (ops.cos phi)

/-- The flat-index overload `evaluate(index, theta, phi)`: decode `(l, m)`
via `coefficient_lm` and delegate. -/
def evaluate_index (ops : RealOps α) (P : ℕ → ℤ → α → α) (fact : ℕ → α)
    (index : ℕ) (theta phi : α) : α :=
  let lm := coefficient_lm index
  evaluate ops P fact lm.1 lm.2 theta phi

/-- Source `is_zero(coefficient_count, coefficients)`: scan the indices in order and
return `false` as soon as an entry differs from `precision(0)`, else `true`.
(The source declares the return type as `precision`, but returns the boolean
literals `true`/`false`; we keep the boolean value.) -/
def is_zero [DecidableEq α] (n : ℕ) (coefficients : ℕ → α) : Bool :=
  (List.range n).all fun index => decide (coefficients index = 0)

/-- Source `l1_distance(coefficient_count, lhs, rhs)`: the loop accumulating
`abs(lhs[index] - rhs[index])` over `index < coefficient_count`. -/
def l1_distance (n : ℕ) (lhs_coefficients rhs_coefficients : ℕ → α) : α :=
  ∑ index ∈ Finset.range n,
    |lhs_coefficients index - rhs_coefficients index|

/-- The vertex-slot layout `point_offset = latitude + longitude *
tessellations.y` shared by `sample` and `sample_sum`. -/
def point_offset (tessellations : ℕ × ℕ) (longitude latitude : ℕ) : ℕ :=
  latitude + longitude * tessellations.2

/-- The point record the `sample` kernel writes for the grid cell
`(longitude, latitude)`: `point.y = 2π·longitude/tessellations.x`,
`point.z = π·latitude/(tessellations.y - 1)` (unsigned subtraction, modelled
with `Nat` subtraction; `tessellations.y = 0` underflows in the source and is
outside every caller's precondition), `point.x = evaluate(l, m, point.y,
point.z)`. -/
def sample_point (ops : RealOps α) (P : ℕ → ℤ → α → α) (fact : ℕ → α)
    (l : ℕ) (m : ℤ) (tessellations : ℕ × ℕ) (longitude latitude : ℕ) :
    Point3 α :=
  let theta := 2 * ops.pi * (longitude : α) / (tessellations.1 : α)
  let phi := ops.pi * (latitude : α) / ((tessellations.2 - 1 : ℕ) : α)
  { x := evaluate ops P fact l m theta phi, y := theta, z := phi }

/-- The six triangle-index entries the `sample` kernel writes at
`index_offset = 6 * point_offset` for the grid cell `(longitude, latitude)`,
in source order; `sample_sum` writes the same entries shifted by
`base_index`. -/
def sample_cell_indices (tessellations : ℕ × ℕ)
    (longitude latitude : ℕ) : List ℕ :=
  [ longitude * tessellations.2 + latitude,
    longitude * tessellations.2 + (latitude + 1) % tessellations.2,
    ((longitude + 1) % tessellations.1) * tessellations.2 +
      (latitude + 1) % tessellations.2,
    longitude * tessellations.2 + latitude,
    ((longitude + 1) % tessellations.1) * tessellations.2 +
      (latitude + 1) % tessellations.2,
    ((longitude + 1) % tessellations.1) * tessellations.2 + latitude ]

/-- The point record the `sample_sum` kernel leaves at the vertex
`(longitude, latitude)`: the same angles as `sample` and, in the value slot,
the atomic accumulation over all in-range coefficient indices of
`evaluate(coefficient_index, θ, φ) * coefficients[coefficient_index]`, after
the `coefficient_index == 0` worker zero-initialised the slot. -/
def sample_sum_point (ops : RealOps α) (P : ℕ → ℤ → α → α) (fact : ℕ → α)
    (coefficient_count : ℕ) (tessellations : ℕ × ℕ) (coefficients : ℕ → α)
    (longitude latitude : ℕ) : Point3 α :=
  let theta := 2 * ops.pi * (longitude : α) / (tessellations.1 : α)
  let phi := ops.pi * (latitude : α) / ((tessellations.2 - 1 : ℕ) : α)
  { x := ∑ ci ∈ Finset.range coefficient_count,
           evaluate_index ops P fact ci theta phi * coefficients ci,
    y := theta, z := phi }

/-- The final point buffer of one `sample_sum` launch: slot `p` is written
exactly when some in-range work item maps to it, i.e. when `p <
tessellations.x * tessellations.y` (the offset map is bijective, see below)
and at least one coefficient worker exists; the writer decodes as
`longitude = p / tessellations.y`, `latitude = p % tessellations.y`. -/
def sample_sum_points (ops : RealOps α) (P : ℕ → ℤ → α → α) (fact : ℕ → α)
    (coefficient_count : ℕ) (tessellations : ℕ × ℕ) (coefficients : ℕ → α)
    (points0 : ℕ → Point3 α) : ℕ → Point3 α :=
  fun p =>
    if 0 < coefficient_count ∧ p < tessellations.1 * tessellations.2 then
      sample_sum_point ops P fact coefficient_count tessellations coefficients
        (p / tessellations.2) (p % tessellations.2)
    else points0 p

/-- The final index buffer of one `sample_sum` launch: entry `q` belongs to
the cell `point_offset = q / 6` and is written (by that cell's
`coefficient_index == 0` worker) with `base_index +` the `(q % 6)`-th entry
of the cell's six-entry emission. -/
def sample_sum_indices (coefficient_count : ℕ) (tessellations : ℕ × ℕ)
    (base_index : ℕ) (indices0 : ℕ → ℕ) : ℕ → ℕ :=
  fun q =>
    if 0 < coefficient_count ∧
        q < 6 * (tessellations.1 * tessellations.2) then
      base_index +
        (sample_cell_indices tessellations
          ((q / 6) / tessellations.2) ((q / 6) % tessellations.2)).getD
          (q % 6) 0
    else indices0 q

/-- The final point buffer of a `sample_sums` launch: the volume index
`z + dimensions.z * (y + dimensions.y * x)` ranges over
`[0, dimensions.x * dimensions.y * dimensions.z)`; instance `v` owns the
point slice starting at `points_offset = v * (tessellations.x *
tessellations.y)` and the coefficient slice starting at
`v * coefficient_count`, and runs `sample_sum` on it. -/
def sample_sums_points (ops : RealOps α) (P : ℕ → ℤ → α → α) (fact : ℕ → α)
    (dimensions : ℕ × ℕ × ℕ) (coefficient_count : ℕ)
    (tessellations : ℕ × ℕ) (coefficients : ℕ → α)
    (points0 : ℕ → Point3 α) : ℕ → Point3 α :=
  fun p =>
    if p < dimensions.1 * dimensions.2.1 * dimensions.2.2 *
        (tessellations.1 * tessellations.2) then
      sample_sum_points ops P fact coefficient_count tessellations
        (fun i => coefficients
          ((p / (tessellations.1 * tessellations.2)) * coefficient_count + i))
        (fun _ => points0 p)
        (p % (tessellations.1 * tessellations.2))
    else points0 p

/-- The final index buffer of a `sample_sums` launch: instance `v` owns the
index slice starting at `indices_offset = 6 * points_offset` and passes
`base_index + points_offset` down to its `sample_sum`. -/
def sample_sums_indices (dimensions : ℕ × ℕ × ℕ) (coefficient_count : ℕ)
    (tessellations : ℕ × ℕ) (base_index : ℕ) (indices0 : ℕ → ℕ) : ℕ → ℕ :=
  fun q =>
    if q < dimensions.1 * dimensions.2.1 * dimensions.2.2 *
        (6 * (tessellations.1 * tessellations.2)) then
      sample_sum_indices coefficient_count tessellations
        (base_index + (q / (6 * (tessellations.1 * tessellations.2))) *
          (tessellations.1 * tessellations.2))
        (fun _ => indices0 q)
        (q % (6 * (tessellations.1 * tessellations.2)))
    else indices0 q

/-- Total contribution of one `calculate_matrix` launch to the global output
slot `p`, when the kernel writes through the pointer `output_matrix + base`:
the work item `(vector_index, coefficient_index)` atomically adds
`evaluate(coefficient_index, vectors[vector_index].y,
vectors[vector_index].z)` into slot
`base + vector_index + vector_count * coefficient_index`. -/
def cm_contribution (ops : RealOps α) (P : ℕ → ℤ → α → α) (fact : ℕ → α)
    (vector_count coefficient_count : ℕ) (vectors : ℕ → Point3 α)
    (base p : ℕ) : α :=
  ∑ vi ∈ Finset.range vector_count, ∑ ci ∈ Finset.range coefficient_count,
    if base + (vi + vector_count * ci) = p then
      evaluate_index ops P fact ci (vectors vi).y (vectors vi).z
    else 0

/-- The final output buffer of one `calculate_matrix` launch: the caller's
initial buffer plus all atomic contributions. -/
def calculate_matrix (ops : RealOps α) (P : ℕ → ℤ → α → α) (fact : ℕ → α)
    (vector_count coefficient_count : ℕ) (vectors : ℕ → Point3 α)
    (output0 : ℕ → α) : ℕ → α :=
  fun p =>
    output0 p +
      cm_contribution ops P fact vector_count coefficient_count vectors 0 p

/-- The final output buffer of a `calculate_matrices` launch: each in-range
volume cell `(x, y, z)` computes `vectors_offset = vector_count * (z +
dimensions.z * (y + dimensions.y * x))` and `matrix_offset = vectors_offset *
coefficient_count`, then launches `calculate_matrix` on those slices. -/
def calculate_matrices (ops : RealOps α) (P : ℕ → ℤ → α → α) (fact : ℕ → α)
    (dimensions : ℕ × ℕ × ℕ) (vector_count coefficient_count : ℕ)
    (vectors : ℕ → Point3 α) (output0 : ℕ → α) : ℕ → α :=
  fun p =>
    output0 p +
      ∑ x ∈ Finset.range dimensions.1, ∑ y ∈ Finset.range dimensions.2.1,
        ∑ z ∈ Finset.range dimensions.2.2,
          cm_contribution ops P fact vector_count coefficient_count
            (fun i => vectors
              (vector_count * (z + dimensions.2.2 * (y + dimensions.2.1 * x)) + i))
            (vector_count * (z + dimensions.2.2 * (y + dimensions.2.1 * x)) *
              coefficient_count) p

/-- The coupling factor of the `product` kernel for the triple
`(lhs_index, rhs_index, out_index)`: decode each index via `coefficient_lm`,
take `cg1 = CG(l_lhs, l_rhs, l_out; 0, 0, 0)` and `cg2 = CG(l_lhs, l_rhs,
l_out; m_lhs, m_rhs, m_out)` from the external `clebsch_gordan` evaluator,
and form `sqrt((2l_lhs+1)(2l_rhs+1) / (4π(2l_out+1))) * cg1 * cg2`. -/
def coupling (ops : RealOps α) (CG : ℕ → ℕ → ℕ → ℤ → ℤ → ℤ → α)
    (lhs_index rhs_index out_index : ℕ) : α :=
  let lhs_lm := coefficient_lm lhs_index
  let rhs_lm := coefficient_lm rhs_index
  let out_lm := coefficient_lm out_index
  let cg1 := CG lhs_lm.1 rhs_lm.1 out_lm.1 0 0 0
  let cg2 := CG lhs_lm.1 rhs_lm.1 out_lm.1 lhs_lm.2 rhs_lm.2 out_lm.2
  ops.sqrt ((2 * (lhs_lm.1 : α) + 1) * (2 * (rhs_lm.1 : α) + 1) /
            (4 * ops.pi * (2 * (out_lm.1 : α) + 1))) * cg1 * cg2

/-- Total contribution of one single-triple `product` launch to the global
output slot `p`, writing through `out_coefficients + base`: the work item
`(lhs_index, rhs_index, out_index)` atomically adds `coupling *
lhs[lhs_index] * rhs[rhs_index]` into slot `base + out_index`. -/
def product_contribution (ops : RealOps α)
    (CG : ℕ → ℕ → ℕ → ℤ → ℤ → ℤ → α) (coefficient_count : ℕ)
    (lhs_coefficients rhs_coefficients : ℕ → α) (base p : ℕ) : α :=
  ∑ li ∈ Finset.range coefficient_count,
    ∑ ri ∈ Finset.range coefficient_count,
      ∑ oi ∈ Finset.range coefficient_count,
        if base + oi = p then
          coupling ops CG li ri oi *
            lhs_coefficients li * rhs_coefficients ri
        else 0

/-- The final output buffer of one single-triple `product` launch. -/
def product (ops : RealOps α) (CG : ℕ → ℕ → ℕ → ℤ → ℤ → ℤ → α)
    (coefficient_count : ℕ) (lhs_coefficients rhs_coefficients : ℕ → α)
    (out0 : ℕ → α) : ℕ → α :=
  fun p =>
    out0 p +
      product_contribution ops CG coefficient_count
        lhs_coefficients rhs_coefficients 0 p

/-- The final output buffer of a volume `product` launch: each in-range
volume cell computes `coefficients_offset = coefficient_count * (z +
dimensions.z * (y + dimensions.y * x))` and launches the single-triple
`product` on the shifted `lhs`, `rhs` and `out` slices. -/
def product_volume (ops : RealOps α) (CG : ℕ → ℕ → ℕ → ℤ → ℤ → ℤ → α)
    (dimensions : ℕ × ℕ × ℕ) (coefficient_count : ℕ)
    (lhs_coefficients rhs_coefficients : ℕ → α) (out0 : ℕ → α) : ℕ → α :=
  fun p =>
    out0 p +
      ∑ x ∈ Finset.range dimensions.1, ∑ y ∈ Finset.range dimensions.2.1,
        ∑ z ∈ Finset.range dimensions.2.2,
          product_contribution ops CG coefficient_count
            (fun i => lhs_coefficients
              (coefficient_count * (z + dimensions.2.2 * (y + dimensions.2.1 * x)) + i))
            (fun i => rhs_coefficients
              (coefficient_count * (z + dimensions.2.2 * (y + dimensions.2.1 * x)) + i))
            (coefficient_count * (z + dimensions.2.2 * (y + dimensions.2.1 * x))) p

end cush

namespace cush

/-- C2: for every non-negative integer `i`, `coefficient_lm i` computes
`l = floor(sqrt i)` and `m = i - l^2 - l`, and `coefficient_index` maps the
pair back to `i`: `coefficient_lm` is the exact left inverse of
`coefficient_index`. -/
theorem coefficient_lm_left_inverse (i : ℕ) :
    (coefficient_lm i).1 = Nat.sqrt i ∧
    (coefficient_lm i).2 = (i : ℤ) - (Nat.sqrt i : ℤ) ^ 2 - (Nat.sqrt i : ℤ) ∧
    coefficient_index (coefficient_lm i).1 (coefficient_lm i).2 = (i : ℤ) := by
  refine ⟨rfl, rfl, ?_⟩
  unfold coefficient_index coefficient_lm
  ring

/-- C4: for every `max_l ≥ 0`, `maximum_degree (coefficient_count max_l) =
max_l`, with `maximum_degree count = floor (sqrt count) - 1` inverting
`coefficient_count max_l = (max_l + 1)^2`. -/
theorem maximum_degree_left_inverse (max_l : ℕ) :
    maximum_degree (coefficient_count max_l) = max_l ∧
    maximum_degree (coefficient_count max_l) =
      Nat.sqrt (coefficient_count max_l) - 1 := by
  constructor
  · unfold maximum_degree coefficient_count
    rw [Nat.sqrt_eq]
    omega
  · rfl

/-- C1: for every degree `l`, order `m` with `-l ≤ m ≤ l` and all angles,
`evaluate` returns `sqrt 2 * k * cos (m θ) * P l m (cos φ)` for `m > 0`,
`sqrt 2 * k * sin (-m θ) * P l (-m) (cos φ)` for `m < 0` and
`k * P l 0 (cos φ)` for `m = 0`, where
`k = sqrt ((2l+1) * (l-|m|)! / (4π * (l+|m|)!))` with factorials taken from
the external factorial function. -/
theorem evaluate_spec {α : Type} [LinearOrderedField α] (ops : RealOps α)
    (P : ℕ → ℤ → α → α) (fact : ℕ → α) (l : ℕ) (m : ℤ)
    (theta phi : α) (hlow : -(l : ℤ) ≤ m) (hhigh : m ≤ l) :
    (0 < m → evaluate ops P fact l m theta phi =
      ops.sqrt 2 *
        ops.sqrt ((2 * (l : α) + 1) * fact (l - m.natAbs) /
                  (4 * ops.pi * fact (l + m.natAbs))) *
        ops.cos ((m : α) * theta) * P l m (ops.cos phi)) ∧
    (m < 0 → evaluate ops P fact l m theta phi =
      ops.sqrt 2 *
        ops.sqrt ((2 * (l : α) + 1) * fact (l - m.natAbs) /
                  (4 * ops.pi * fact (l + m.natAbs))) *
        ops.sin ((-m : α) * theta) * P l (-m) (ops.cos phi)) ∧
    (m = 0 → evaluate ops P fact l m theta phi =
      ops.sqrt ((2 * (l : α) + 1) * fact (l - m.natAbs) /
                (4 * ops.pi * fact (l + m.natAbs))) *
        P l 0 (ops.cos phi)) := by
  refine ⟨fun hpos => ?_, fun hneg => ?_, fun hzero => ?_⟩
  · unfold evaluate
    rw [if_pos hpos]
  · unfold evaluate
    rw [if_neg (by omega), if_pos hneg]
  · subst hzero
    unfold evaluate
    norm_num

/-- Helper: the matrix slot map `(vi, ci) ↦ vi + vc * ci` is injective on
`vi < vc`. -/
theorem matrix_slot_inj {vc vi di ci ci' : ℕ} (h1 : vi < vc) (h2 : di < vc)
    (h : vi + vc * ci' = di + vc * ci) : vi = di ∧ ci' = ci := by
  have hvc : 0 < vc := Nat.pos_of_ne_zero (by omega)
  have hmod : vi = di := by
    have := congrArg (fun t => t % vc) h
    simpa [Nat.add_mul_mod_self_left, Nat.mod_eq_of_lt h1,
      Nat.mod_eq_of_lt h2] using this
  refine ⟨hmod, ?_⟩
  subst hmod
  have := Nat.add_left_cancel h
  exact Nat.eq_of_mul_eq_mul_left hvc this

/-- Helper: a grid slot `a * Y + b` with `a < X`, `b < Y` lies in
`[0, X * Y)`. -/
theorem grid_slot_lt {X Y a b : ℕ} (ha : a < X) (hb : b < Y) :
    a * Y + b < X * Y :=
  calc a * Y + b < a * Y + Y := by omega
    _ = (a + 1) * Y := by ring
    _ ≤ X * Y := Nat.mul_le_mul_right Y ha

/-- C9: `is_zero n v` is `true` iff every entry of `v` below `n` is exactly
zero, equivalently iff the L1 distance of `v` to the all-zero vector is
zero. -/
theorem is_zero_spec {α : Type} [LinearOrderedField α] [DecidableEq α]
    (n : ℕ) (v : ℕ → α) :
    (is_zero n v = true ↔ ∀ i < n, v i = 0) ∧
    (is_zero n v = true ↔ l1_distance n v (fun _ => 0) = 0) := by
  have h1 : is_zero n v = true ↔ ∀ i < n, v i = 0 := by
    simp [is_zero, List.all_eq_true, List.mem_range]
  refine ⟨h1, h1.trans ?_⟩
  unfold l1_distance
  rw [Finset.sum_eq_zero_iff_of_nonneg (fun i _ => abs_nonneg _)]
  simp [Finset.mem_range, sub_zero, abs_eq_zero]

/-- C10: for tessellations with `X ≥ 1` and `Y ≥ 1`, the vertex layout map
`(longitude, latitude) ↦ latitude + longitude * Y` is a bijection from the
grid onto `[0, X * Y)`: it is injective on the grid, and every slot below
`X * Y` is hit by exactly one in-range work item. -/
theorem point_offset_bijection (tess : ℕ × ℕ)
    (hx : 1 ≤ tess.1) (hy : 1 ≤ tess.2) :
    (∀ lon1 lat1 lon2 lat2, lon1 < tess.1 → lat1 < tess.2 →
      lon2 < tess.1 → lat2 < tess.2 →
      point_offset tess lon1 lat1 = point_offset tess lon2 lat2 →
      lon1 = lon2 ∧ lat1 = lat2) ∧
    (∀ p < tess.1 * tess.2, ∃! c : ℕ × ℕ,
      c.1 < tess.1 ∧ c.2 < tess.2 ∧ point_offset tess c.1 c.2 = p) := by
  have hy0 : 0 < tess.2 := hy
  have inj : ∀ lon1 lat1 lon2 lat2, lon1 < tess.1 → lat1 < tess.2 →
      lon2 < tess.1 → lat2 < tess.2 →
      point_offset tess lon1 lat1 = point_offset tess lon2 lat2 →
      lon1 = lon2 ∧ lat1 = lat2 := by
    intro lon1 lat1 lon2 lat2 _ hlat1 _ hlat2 h
    unfold point_offset at h
    have hmod : lat1 = lat2 := by
      have := congrArg (fun t => t % tess.2) h
      simpa [Nat.add_mul_mod_self_right, Nat.mod_eq_of_lt hlat1,
        Nat.mod_eq_of_lt hlat2] using this
    subst hmod
    have hmul : lon1 * tess.2 = lon2 * tess.2 := by omega
    exact ⟨Nat.eq_of_mul_eq_mul_right hy0 hmul, rfl⟩
  refine ⟨inj, fun p hp => ?_⟩
  refine ⟨(p / tess.2, p % tess.2), ⟨?_, ?_, ?_⟩, ?_⟩
  · exact (Nat.div_lt_iff_lt_mul hy0).mpr (by omega)
  · exact Nat.mod_lt _ hy0
  · unfold point_offset
    exact Nat.mod_add_div' p tess.2
  · rintro ⟨lon, lat⟩ ⟨hlon, hlat, hoff⟩
    have hdiv : point_offset tess (p / tess.2) (p % tess.2) = p := by
      unfold point_offset
      exact Nat.mod_add_div' p tess.2
    have := inj lon lat (p / tess.2) (p % tess.2) hlon hlat
      ((Nat.div_lt_iff_lt_mul hy0).mpr (by omega)) (Nat.mod_lt _ hy0)
      (hoff.trans hdiv.symm)
    exact Prod.ext this.1 this.2

/-- Witness for C10 at tessellations `(2, 2)`. -/
theorem point_offset_bijection_witness :
    1 ≤ (2, 2).1 ∧ 1 ≤ (2, 2).2 ∧
    ((∀ lon1 lat1 lon2 lat2, lon1 < (2, 2).1 → lat1 < (2, 2).2 →
        lon2 < (2, 2).1 → lat2 < (2, 2).2 →
        point_offset (2, 2) lon1 lat1 = point_offset (2, 2) lon2 lat2 →
        lon1 = lon2 ∧ lat1 = lat2) ∧
      (∀ p < (2, 2).1 * (2, 2).2, ∃! c : ℕ × ℕ,
        c.1 < (2, 2).1 ∧ c.2 < (2, 2).2 ∧ point_offset (2, 2) c.1 c.2 = p)) :=
  ⟨by decide, by decide, point_offset_bijection (2, 2) (by decide) (by decide)⟩

/-- C5: with the output buffer zero-initialised, `calculate_matrix` leaves
`output_matrix[direction_index + vector_count * coefficient_index]` equal to
`evaluate(coefficient_index, vectors[direction_index].y,
vectors[direction_index].z)` for every in-range pair. -/
theorem calculate_matrix_spec {α : Type} [LinearOrderedField α]
    (ops : RealOps α) (P : ℕ → ℤ → α → α) (fact : ℕ → α)
    (vc cc : ℕ) (vectors : ℕ → Point3 α) (output0 : ℕ → α)
    (h0 : ∀ p, output0 p = 0) (di ci : ℕ) (hdi : di < vc) (hci : ci < cc) :
    calculate_matrix ops P fact vc cc vectors output0 (di + vc * ci) =
      evaluate_index ops P fact ci (vectors di).y (vectors di).z := by
  unfold calculate_matrix cm_contribution
  rw [h0, zero_add]
  simp only [zero_add]
  rw [Finset.sum_eq_single di
    (fun vi hvi hne => Finset.sum_eq_zero (fun ci' _ => by
      rw [if_neg]
      intro hc
      exact hne (matrix_slot_inj (Finset.mem_range.mp hvi) hdi hc).1))
    (fun h => absurd (Finset.mem_range.mpr hdi) h)]
  rw [Finset.sum_eq_single ci
    (fun ci' _ hne => by
      rw [if_neg]
      intro hc
      exact hne (matrix_slot_inj hdi hdi hc).2)
    (fun h => absurd (Finset.mem_range.mpr hci) h)]
  rw [if_pos rfl]

/-- Witness for C5 over `ℚ` at `vector_count = coefficient_count = 1`. -/
theorem calculate_matrix_spec_witness :
    (∀ p, (fun _ : ℕ => (0 : ℚ)) p = 0) ∧ 0 < 1 ∧ 0 < 1 ∧
    calculate_matrix (RealOps.mk id id id 3) (fun _ _ _ => 0) (fun _ => 1)
        1 1 (fun _ => Point3.mk 0 0 0) (fun _ => 0) (0 + 1 * 0) =
      evaluate_index (α := ℚ) (RealOps.mk id id id 3) (fun _ _ _ => 0)
        (fun _ => 1) 0 ((fun _ : ℕ => Point3.mk (0 : ℚ) 0 0) 0).y
        ((fun _ : ℕ => Point3.mk (0 : ℚ) 0 0) 0).z :=
  ⟨fun _ => rfl, by decide, by decide,
    calculate_matrix_spec (RealOps.mk id id id 3) (fun _ _ _ => 0)
      (fun _ => 1) 1 1 (fun _ => Point3.mk 0 0 0) (fun _ => 0)
      (fun _ => rfl) 0 0 (by decide) (by decide)⟩

/-- C3: with the output buffer zero-initialised, the single-triple `product`
leaves `out[out_index]` equal to the sum over all in-range pairs
`(lhs_index, rhs_index)` of `coupling * lhs[lhs_index] * rhs[rhs_index]`,
the coupling being built from the two external Clebsch-Gordan values. -/
theorem product_spec {α : Type} [LinearOrderedField α]
    (ops : RealOps α) (CG : ℕ → ℕ → ℕ → ℤ → ℤ → ℤ → α) (n : ℕ)
    (lhs rhs : ℕ → α) (out0 : ℕ → α) (h0 : ∀ p, out0 p = 0)
    (oi : ℕ) (hoi : oi < n) :
    product ops CG n lhs rhs out0 oi =
      ∑ li ∈ Finset.range n, ∑ ri ∈ Finset.range n,
        coupling ops CG li ri oi * lhs li * rhs ri := by
  unfold product product_contribution
  rw [h0, zero_add]
  refine Finset.sum_congr rfl fun li _ => Finset.sum_congr rfl fun ri _ => ?_
  simp only [zero_add]
  rw [Finset.sum_ite_eq' (Finset.range n) oi
    (fun oi' => coupling ops CG li ri oi' * lhs li * rhs ri)]
  rw [if_pos (Finset.mem_range.mpr hoi)]

/-- Witness for C3 over `ℚ` at `coefficient_count = 1`. -/
theorem product_spec_witness :
    (∀ p, (fun _ : ℕ => (0 : ℚ)) p = 0) ∧ 0 < 1 ∧
    product (RealOps.mk id id id 3) (fun _ _ _ _ _ _ => 1) 1
        (fun _ => 1) (fun _ => 1) (fun _ => 0) 0 =
      ∑ li ∈ Finset.range 1, ∑ ri ∈ Finset.range 1,
        coupling (α := ℚ) (RealOps.mk id id id 3) (fun _ _ _ _ _ _ => 1)
          li ri 0 * (fun _ : ℕ => (1 : ℚ)) li * (fun _ : ℕ => (1 : ℚ)) ri :=
  ⟨fun _ => rfl, by decide,
    product_spec (RealOps.mk id id id 3) (fun _ _ _ _ _ _ => 1) 1
      (fun _ => 1) (fun _ => 1) (fun _ => 0) (fun _ => rfl) 0 (by decide)⟩

/-- C6 counterexample: at tessellations `(4, 3)`, cell `(0, 0)`, the two
emitted triangles do not share the edge
`(longitude, latitude+1)-(longitude+1, latitude+1)` claimed by the spec: the
vertex offset of `(0, 1)` appears in the first triangle but not in the
second (which is `[0, 4, 3]`). -/
theorem sample_shared_edge_counterexample :
    ¬ (((0 * 3 + (0 + 1) % 3) ∈ (sample_cell_indices (4, 3) 0 0).take 3 ∧
        (0 * 3 + (0 + 1) % 3) ∈ (sample_cell_indices (4, 3) 0 0).drop 3) ∧
       ((((0 + 1) % 4) * 3 + (0 + 1) % 3) ∈
          (sample_cell_indices (4, 3) 0 0).take 3 ∧
        (((0 + 1) % 4) * 3 + (0 + 1) % 3) ∈
          (sample_cell_indices (4, 3) 0 0).drop 3)) := by
  decide

/-- C6 (amended): for tessellations with `X ≥ 1`, `Y ≥ 2` and every in-range
cell, all six emitted triangle-index entries lie in `[0, X * Y)`, and the two
triangles of the quad share the diagonal edge
`(longitude, latitude)-(longitude+1, latitude+1)` (with wrap-around): both
of its vertex offsets occur in the first three entries and in the last
three. -/
theorem sample_indices_valid_and_diagonal (tess : ℕ × ℕ) (lon lat : ℕ)
    (hx : 1 ≤ tess.1) (hy : 2 ≤ tess.2)
    (hlon : lon < tess.1) (hlat : lat < tess.2) :
    (∀ e ∈ sample_cell_indices tess lon lat, e < tess.1 * tess.2) ∧
    ((lon * tess.2 + lat) ∈ (sample_cell_indices tess lon lat).take 3 ∧
     (lon * tess.2 + lat) ∈ (sample_cell_indices tess lon lat).drop 3 ∧
     (((lon + 1) % tess.1) * tess.2 + (lat + 1) % tess.2) ∈
       (sample_cell_indices tess lon lat).take 3 ∧
     (((lon + 1) % tess.1) * tess.2 + (lat + 1) % tess.2) ∈
       (sample_cell_indices tess lon lat).drop 3) := by
  have hx0 : 0 < tess.1 := hx
  have hy0 : 0 < tess.2 := by omega
  constructor
  · intro e he
    simp only [sample_cell_indices, List.mem_cons, List.not_mem_nil,
      or_false] at he
    rcases he with h | h | h | h | h | h <;> subst h
    · exact grid_slot_lt hlon hlat
    · exact grid_slot_lt hlon (Nat.mod_lt _ hy0)
    · exact grid_slot_lt (Nat.mod_lt _ hx0) (Nat.mod_lt _ hy0)
    · exact grid_slot_lt hlon hlat
    · exact grid_slot_lt (Nat.mod_lt _ hx0) (Nat.mod_lt _ hy0)
    · exact grid_slot_lt (Nat.mod_lt _ hx0) hlat
  · simp [sample_cell_indices]

/-- Witness for the amended C6 at tessellations `(4, 3)`, cell `(1, 1)`. -/
theorem sample_indices_valid_and_diagonal_witness :
    1 ≤ (4, 3).1 ∧ 2 ≤ (4, 3).2 ∧ 1 < (4, 3).1 ∧ 1 < (4, 3).2 ∧
    ((∀ e ∈ sample_cell_indices (4, 3) 1 1, e < (4, 3).1 * (4, 3).2) ∧
     ((1 * (4, 3).2 + 1) ∈ (sample_cell_indices (4, 3) 1 1).take 3 ∧
      (1 * (4, 3).2 + 1) ∈ (sample_cell_indices (4, 3) 1 1).drop 3 ∧
      (((1 + 1) % (4, 3).1) * (4, 3).2 + (1 + 1) % (4, 3).2) ∈
        (sample_cell_indices (4, 3) 1 1).take 3 ∧
      (((1 + 1) % (4, 3).1) * (4, 3).2 + (1 + 1) % (4, 3).2) ∈
        (sample_cell_indices (4, 3) 1 1).drop 3)) :=
  ⟨by decide, by decide, by decide, by decide,
    sample_indices_valid_and_diagonal (4, 3) 1 1
      (by decide) (by decide) (by decide) (by decide)⟩

/-- C7: at `max_l = 1` (4 coefficients) and tessellations `(4, 3)`, the
`sample_sum` vertex record for the pure-DC coefficient vector
`[1, 0, 0, 0]` coincides exactly with the `sample(0, 0)` vertex record at
every in-range vertex. -/
theorem sample_sum_dc_eq_sample {α : Type} [LinearOrderedField α]
    [DecidableEq α] (ops : RealOps α) (P : ℕ → ℤ → α → α) (fact : ℕ → α)
    (lon lat : ℕ) (hlon : lon < 4) (hlat : lat < 3) :
    sample_sum_point ops P fact 4 (4, 3)
        (fun i => if i = 0 then 1 else 0) lon lat =
      sample_point ops P fact 0 0 (4, 3) lon lat := by
  unfold sample_sum_point sample_point
  dsimp only
  rw [Point3.mk.injEq]
  refine ⟨?_, rfl, rfl⟩
  rw [show (4 : ℕ) = 3 + 1 from rfl, Finset.sum_range_succ,
    Finset.sum_range_succ, Finset.sum_range_succ, Finset.sum_range_one]
  simp [evaluate_index, coefficient_lm, Nat.sqrt_zero]

/-- Witness for C7 over `ℚ` at vertex `(2, 1)`. -/
theorem sample_sum_dc_eq_sample_witness :
    2 < 4 ∧ 1 < 3 ∧
    sample_sum_point (RealOps.mk id id id 3) (fun _ _ _ => 0) (fun _ => 1)
        4 (4, 3) (fun i => if i = 0 then (1 : ℚ) else 0) 2 1 =
      sample_point (RealOps.mk id id id 3) (fun _ _ _ => 0) (fun _ => 1)
        0 0 (4, 3) 2 1 :=
  ⟨by decide, by decide,
    sample_sum_dc_eq_sample (RealOps.mk id id id 3) (fun _ _ _ => 0)
      (fun _ => 1) 2 1 (by decide) (by decide)⟩

/-- C8: the batched routines `calculate_matrices`, `sample_sums` (points and
index buffers) and the volume `product`, launched with
`dimensions = (1, 1, 1)`, produce output buffers identical to those of their
single-instance counterparts on the same inputs; in particular all slice
offsets reduce to zero and `sample_sums` passes the caller's `base_index`
through unchanged. -/
theorem batched_unit_volume_eq_single {α : Type} [LinearOrderedField α]
    (ops : RealOps α) (P : ℕ → ℤ → α → α) (fact : ℕ → α)
    (CG : ℕ → ℕ → ℕ → ℤ → ℤ → ℤ → α) (vc cc n : ℕ)
    (vectors : ℕ → Point3 α) (mat0 : ℕ → α) (tess : ℕ × ℕ)
    (coeffs : ℕ → α) (pts0 : ℕ → Point3 α) (base : ℕ) (idx0 : ℕ → ℕ)
    (lhs rhs out0 : ℕ → α) :
    (∀ p, calculate_matrices ops P fact (1, 1, 1) vc cc vectors mat0 p =
          calculate_matrix ops P fact vc cc vectors mat0 p) ∧
    (∀ p, sample_sums_points ops P fact (1, 1, 1) cc tess coeffs pts0 p =
          sample_sum_points ops P fact cc tess coeffs pts0 p) ∧
    (∀ q, sample_sums_indices (1, 1, 1) cc tess base idx0 q =
          sample_sum_indices cc tess base idx0 q) ∧
    (∀ p, product_volume ops CG (1, 1, 1) n lhs rhs out0 p =
          product ops CG n lhs rhs out0 p) := by
  refine ⟨fun p => ?_, fun p => ?_, fun q => ?_, fun p => ?_⟩
  · unfold calculate_matrices calculate_matrix
    simp [Finset.sum_range_one]
  · unfold sample_sums_points sample_sum_points
    simp only [one_mul]
    by_cases hp : p < tess.1 * tess.2
    · have hmod : p % (tess.1 * tess.2) = p := Nat.mod_eq_of_lt hp
      have hdiv : p / (tess.1 * tess.2) = 0 := Nat.div_eq_of_lt hp
      rw [if_pos hp, hmod, hdiv]
      simp
    · rw [if_neg hp, if_neg (by omega)]
  · unfold sample_sums_indices sample_sum_indices
    simp only [one_mul]
    by_cases hq : q < 6 * (tess.1 * tess.2)
    · have hmod : q % (6 * (tess.1 * tess.2)) = q := Nat.mod_eq_of_lt hq
      have hdiv : q / (6 * (tess.1 * tess.2)) = 0 := Nat.div_eq_of_lt hq
      rw [if_pos hq, hmod, hdiv]
      simp
    · rw [if_neg hq, if_neg (by omega)]
  · unfold product_volume product
    simp [Finset.sum_range_one]

/-- Witness for C1 at `l = 1`, `m = 0` over `ℚ`, with trivial external
collaborators and identity-like math operations. -/
theorem evaluate_spec_witness :
    -((1 : ℕ) : ℤ) ≤ (0 : ℤ) ∧ (0 : ℤ) ≤ ((1 : ℕ) : ℤ) ∧
    ((0 : ℤ) = 0 →
      evaluate (RealOps.mk id id id 3) (fun _ _ _ => 0) (fun _ => 1)
          1 0 0 0 =
        (RealOps.mk (α := ℚ) id id id 3).sqrt
            ((2 * ((1 : ℕ) : ℚ) + 1) * (fun _ : ℕ => (1 : ℚ)) (1 - (0 : ℤ).natAbs) /
             (4 * (RealOps.mk (α := ℚ) id id id 3).pi *
              (fun _ : ℕ => (1 : ℚ)) (1 + (0 : ℤ).natAbs))) *
          (fun _ _ _ => (0 : ℚ)) 1 (0 : ℤ)
            ((RealOps.mk (α := ℚ) id id id 3).cos 0)) :=
  ⟨by decide, by decide,
    (evaluate_spec (RealOps.mk id id id 3) (fun _ _ _ => 0) (fun _ => 1)
      1 0 0 0 (by decide) (by decide)).2.2⟩

end cush
